import Mathlib

/-!
Verification of the grep-lite line-scanning engine (src/main.rs).

The Rust program is shallowly embedded: streams are lists of
`Except String String` (an `io::Result<String>` per line), the mutable scan
state (`current_count`, `before_buffer`, `after_countdown`) is an explicit
record threaded through a structural recursion, and everything printed to
standard output is collected as a list of structured records (`OutRec`),
with `OutRec.render` giving the exact printed text. The regex engine and
terminal colouring are external capabilities; they enter as the match
function `p : String → Bool` (`re.is_match`) and the highlight transform
`hl : String → String` (`re.replace_all` with colour markers).
-/

namespace GrepLite

/-- One record written to standard output.  `emit t i s` is a printed line:
`t` is the stream-name part of the leading label (`some name` when
`is_multiple_files`, `none` otherwise), `i` the 0-based line index, `s` the
(possibly highlighted) text.  `notice` is the message printed on a line
read error, `summary` the count-mode summary. -/
inductive OutRec where
  | emit (tag : Option String) (index : Nat) (text : String)
  | notice (file_name : String) (msg : String)
  | summary (tag : Option String) (n : Nat)
deriving DecidableEq, Repr

/-- The exact text of each output record, as printed by the Rust code
(line indices are displayed 1-based). -/
def OutRec.render : OutRec → String
  | OutRec.emit (some name) i t => name ++ ":" ++ toString (i + 1) ++ ": " ++ t
  | OutRec.emit none i t => toString (i + 1) ++ ": " ++ t
  | OutRec.notice name e => name ++ ": Error reading file \x27" ++ e ++ "\x27"
  | OutRec.summary (some name) n => name ++ ": " ++ toString n
  | OutRec.summary none n => toString n

/-- Is the record a per-line `emit`? -/
def OutRec.isEmit : OutRec → Bool
  | OutRec.emit _ _ _ => true
  | _ => false

/-- Is the record a read-error notice? -/
def OutRec.isNotice : OutRec → Bool
  | OutRec.notice _ _ => true
  | _ => false

/-- The stream-name tag of an `emit` or `summary` record (`none` for
notices, which always carry the stream name in their text). -/
def OutRec.name_tag : OutRec → Option (Option String)
  | OutRec.emit tg _ _ => some tg
  | OutRec.summary tg _ => some tg
  | OutRec.notice _ _ => none

/-- The configuration a single `process_line` call receives: the match
function and highlighter standing for the compiled regex, plus the
arguments forwarded from `main`. -/
structure ScanConfig where
  p : String → Bool
  hl : String → String
  invert_match : Bool
  count : Bool
  is_multiple_files : Bool
  file_name : String
  after_context : Nat
  before_context : Nat

/-- The mutable state of the scan loop in `process_line`. -/
structure ScanState where
  current_count : Nat
  before_buffer : List (Nat × String)
  after_countdown : Nat
deriving DecidableEq, Repr

/-- `print_line_with_highlighted_text`: in count mode increment the counter
and print nothing; otherwise print the (highlighted unless inverted) line
with its label. -/
def print_line_with_highlighted_text (count : Bool) (current_count : Nat)
    (line : String) (index : Nat) (is_multiple_files : Bool) (file_name : String)
    (hl : String → String) (invert_match : Bool) : Nat × List OutRec :=
  if count then (current_count + 1, [])
  else
    let highlighted_line := if invert_match then line else hl line
    ((current_count),
      [OutRec.emit (if is_multiple_files then some file_name else none) index highlighted_line])

/-- The flush of the whole `before_buffer` performed when a match is found:
each buffered record is printed (or counted) in FIFO order. -/
def flush_before (cfg : ScanConfig) : Nat → List (Nat × String) → Nat × List OutRec
  | c, [] => (c, [])
  | c, b :: t =>
    let r := print_line_with_highlighted_text cfg.count c b.2 b.1
      cfg.is_multiple_files cfg.file_name cfg.hl cfg.invert_match
    let r2 := flush_before cfg r.1 t
    (r2.1, r.2 ++ r2.2)

/-- The body of the `for (index, line)` loop of `process_line` for one
successfully read line. -/
def process_step (cfg : ScanConfig) (st : ScanState) (index : Nat) (line : String) :
    ScanState × List OutRec :=
  let match_found := cfg.p line != cfg.invert_match
  if match_found then
    let flushed := flush_before cfg st.current_count st.before_buffer
    let r := print_line_with_highlighted_text cfg.count flushed.1 line index
      cfg.is_multiple_files cfg.file_name cfg.hl cfg.invert_match
    ({ current_count := r.1, before_buffer := [], after_countdown := cfg.after_context },
      flushed.2 ++ r.2)
  else if 0 < st.after_countdown then
    let r := print_line_with_highlighted_text cfg.count st.current_count line index
      cfg.is_multiple_files cfg.file_name cfg.hl cfg.invert_match
    ({ current_count := r.1, before_buffer := st.before_buffer,
       after_countdown := st.after_countdown - 1 }, r.2)
  else
    let pushed := st.before_buffer ++ [(index, line)]
    ({ current_count := st.current_count,
       before_buffer := if cfg.before_context < pushed.length then pushed.tail else pushed,
       after_countdown := st.after_countdown }, [])

/-- The scan loop of `process_line`: lines are consumed in order; an
`Except.error` line prints the error notice and breaks out of the loop. -/
def process_loop (cfg : ScanConfig) :
    List (Except String String) → Nat → ScanState → ScanState × List OutRec
  | [], _, st => (st, [])
  | Except.error e :: _, _, st => (st, [OutRec.notice cfg.file_name e])
  | Except.ok line :: rest, index, st =>
    let r := process_step cfg st index line
    let r2 := process_loop cfg rest (index + 1) r.1
    (r2.1, r.2 ++ r2.2)

/-- The initial scan state of `process_line`. -/
def initState : ScanState :=
  { current_count := 0, before_buffer := [], after_countdown := 0 }

/-- `process_line`: scan a whole stream and, in count mode, append the
summary record. -/
def process_line (cfg : ScanConfig) (lines : List (Except String String)) :
    List OutRec :=
  let r := process_loop cfg lines 0 initState
  r.2 ++
    (if cfg.count then
      [OutRec.summary (if cfg.is_multiple_files then some cfg.file_name else none)
        r.1.current_count]
    else [])

/-- The CLI arguments (`struct Grep`), minus the pattern text and
case-insensitivity flag, which only feed the regex builder and are
represented by the match function `p` itself. -/
structure Grep where
  inputs : List String
  invert_match : Bool
  count : Bool
  recursive : Bool
  after_context : Nat
  before_context : Nat
  context : Nat

/-- `before_context` after the unified `-C context` override in `main`. -/
def effective_before (args : Grep) : Nat :=
  if 0 < args.context then args.context else args.before_context

/-- `after_context` after the unified `-C context` override in `main`. -/
def effective_after (args : Grep) : Nat :=
  if 0 < args.context then args.context else args.after_context

/-- The `ScanConfig` that `main`/`process_file` hand to `process_line` for
one stream. -/
def mk_scan_config (p : String → Bool) (hl : String → String) (args : Grep)
    (is_multiple_files : Bool) (file_name : String) : ScanConfig :=
  { p := p, hl := hl, invert_match := args.invert_match, count := args.count,
    is_multiple_files := is_multiple_files, file_name := file_name,
    after_context := effective_after args, before_context := effective_before args }

/-- The filesystem as the program observes it: `open_file` is `File::open`
followed by buffered line reading (an open failure, or the per-line read
results), `walk`/`is_file` are the `WalkDir` entries that yield `Ok` and
their file-type test. -/
structure FileSystem where
  open_file : String → Except String (List (Except String String))
  walk : String → List String
  is_file : String → Bool

/-- `process_file`: open the file and scan it; an open failure is returned
as the fatal error (`?` in the Rust code), having printed nothing. -/
def process_file (fs : FileSystem) (p : String → Bool) (hl : String → String)
    (args : Grep) (is_multiple_files : Bool) (file_name : String) :
    List OutRec × Option String :=
  match fs.open_file file_name with
  | Except.error e => ([], some e)
  | Except.ok lines =>
    (process_line (mk_scan_config p hl args is_multiple_files file_name) lines, none)

/-- Process a list of files in order; the first open failure aborts
(the `?` on `process_file` in `main`), keeping the output printed so far. -/
def run_files (fs : FileSystem) (p : String → Bool) (hl : String → String)
    (args : Grep) (is_multiple_files : Bool) :
    List String → List OutRec × Option String
  | [] => ([], none)
  | f :: rest =>
    match process_file fs p hl args is_multiple_files f with
    | (out, some e) => (out, some e)
    | (out, none) =>
      let r := run_files fs p hl args is_multiple_files rest
      (out ++ r.1, r.2)

/-- The `for input in inputs` loop of `main`: each input is either walked
recursively (processing every regular file the traversal yields) or
processed as a single file; a propagated open failure aborts the loop. -/
def run_inputs (fs : FileSystem) (p : String → Bool) (hl : String → String)
    (args : Grep) (is_multiple_files : Bool) :
    List String → List OutRec × Option String
  | [] => ([], none)
  | input :: rest =>
    let files := if args.recursive then (fs.walk input).filter fs.is_file else [input]
    let r := run_files fs p hl args is_multiple_files files
    match r.2 with
    | some e => (r.1, some e)
    | none =>
      let r2 := run_inputs fs p hl args is_multiple_files rest
      (r.1 ++ r2.1, r2.2)

/-- `main` after the regex is built: the output printed to stdout and the
fatal error it terminates with, if any.  With no inputs, standard input is
scanned as the stream named `-` with `is_multiple_files = false`. -/
def main_run (fs : FileSystem) (args : Grep) (p : String → Bool)
    (hl : String → String) (stdin_lines : List (Except String String)) :
    List OutRec × Option String :=
  let is_multiple_files := decide (1 < args.inputs.length)
  let stdin_out :=
    if args.inputs.isEmpty then
      process_line (mk_scan_config p hl args false "-") stdin_lines
    else []
  let r := run_inputs fs p hl args is_multiple_files args.inputs
  (stdin_out ++ r.1, r.2)

/-- Modelled from the spec: the number of input sources the Input
Resolver yields for a run (the source has no separate resolver component;
`main` inlines it).  Per the spec, standard input is the sole source when
no paths are given, each literal path is one source otherwise, and in
recursive mode every regular file the traversal finds under a path is one
source.  Used only to compare the spec notion of "resolved inputs" with
the code's `is_multiple_files` flag. -/
def spec_resolved_count (fs : FileSystem) (args : Grep) : Nat :=
  if args.inputs.isEmpty then 1
  else (args.inputs.map fun i =>
    if args.recursive then ((fs.walk i).filter fs.is_file).length else 1).sum

/-- The scan state after the first `n` lines of a stream have been
consumed (the whole stream when `n` exceeds its length). -/
def state_after (cfg : ScanConfig) (lines : List (Except String String))
    (n : Nat) : ScanState :=
  (process_loop cfg (lines.take n) 0 initState).1

/-! ### Concrete instances used by the witnesses and counterexamples -/

/-- A pattern that matches every line. -/
def p_true : String → Bool := fun _ => true

/-- A pattern matching exactly the line `m`. -/
def p_m : String → Bool := fun s => s == "m"

/-- A highlighter that leaves the line unchanged. -/
def hl_id : String → String := fun s => s

/-- A highlighter that visibly marks the whole line. -/
def hl_mark : String → String := fun s => "<" ++ s ++ ">"

/-- A destructive highlighter, to witness that inverted output never goes
through the highlighter. -/
def hl_x : String → String := fun _ => "X"

/-- Filesystem where only `b` opens; `a` fails to open. -/
def fs_c1 : FileSystem :=
  { open_file := fun f =>
      if f = "b" then Except.ok [Except.ok "hit"] else Except.error "nofile",
    walk := fun _ => [], is_file := fun _ => true }

/-- Two input paths, no flags. -/
def args_c1 : Grep :=
  { inputs := ["a", "b"], invert_match := false, count := false,
    recursive := false, after_context := 0, before_context := 0, context := 0 }

/-- Filesystem with one directory `d` holding two regular files. -/
def fs_c2 : FileSystem :=
  { open_file := fun f =>
      if f = "d/f1" then Except.ok [Except.ok "x"]
      else if f = "d/f2" then Except.ok [Except.ok "y"]
      else Except.error "nofile",
    walk := fun d => if d = "d" then ["d", "d/f1", "d/f2"] else [],
    is_file := fun f => f != "d" }

/-- A single recursive input path. -/
def args_c2 : Grep :=
  { inputs := ["d"], invert_match := false, count := false,
    recursive := true, after_context := 0, before_context := 0, context := 0 }

/-- Filesystem where both `a` and `b` open to a one-line stream. -/
def fs_c2b : FileSystem :=
  { open_file := fun _ => Except.ok [Except.ok "m"],
    walk := fun _ => [], is_file := fun _ => true }

/-- Configuration with no context for the no-context witness. -/
def cfg_c5 : ScanConfig :=
  { p := p_m, hl := hl_mark, invert_match := false, count := false,
    is_multiple_files := false, file_name := "f",
    after_context := 0, before_context := 0 }

def xs_c5 : List String := ["a", "m", "c", "m"]

/-- Configuration with `before = 1` for the unflushed-tail witness. -/
def cfg_c6 : ScanConfig :=
  { p := p_m, hl := hl_id, invert_match := false, count := false,
    is_multiple_files := false, file_name := "-",
    after_context := 0, before_context := 1 }

def lines_c6 : List (Except String String) := [Except.ok "m", Except.ok "x"]

/-- Filesystem where stream `a` fails mid-read and `b` reads fine. -/
def fs_c8 : FileSystem :=
  { open_file := fun f =>
      if f = "a" then
        Except.ok [Except.ok "m", Except.error "bad", Except.ok "zz"]
      else if f = "b" then Except.ok [Except.ok "m"]
      else Except.error "nofile",
    walk := fun _ => [], is_file := fun _ => true }

/-- Inverted configuration with a destructive highlighter. -/
def cfg_c9 : ScanConfig :=
  { p := p_m, hl := hl_x, invert_match := true, count := false,
    is_multiple_files := false, file_name := "-",
    after_context := 0, before_context := 0 }

def xs_c9 : List String := ["m", "a"]

/-- Count-mode configuration for the partial-count witness. -/
def cfg_c10 : ScanConfig :=
  { p := p_m, hl := hl_id, invert_match := false, count := true,
    is_multiple_files := false, file_name := "f",
    after_context := 0, before_context := 0 }

def pre_c10 : List (Except String String) := [Except.ok "m", Except.ok "x"]

def post_c10 : List (Except String String) := [Except.ok "m"]

/-! ### Derived views of the output -/

/-- The stream-name part of an emitted label under a configuration. -/
def ScanConfig.tag (cfg : ScanConfig) : Option String :=
  if cfg.is_multiple_files then some cfg.file_name else none

/-- The text actually printed for a line: verbatim in invert mode,
highlighted otherwise. -/
def ScanConfig.htext (cfg : ScanConfig) (s : String) : String :=
  if cfg.invert_match then s else cfg.hl s

/-- The output record printed for one line record in print mode. -/
def ScanConfig.emitOf (cfg : ScanConfig) (b : Nat × String) : OutRec :=
  OutRec.emit cfg.tag b.1 (cfg.htext b.2)

/-- The 0-based indices of the per-line records of an output. -/
def emitIndices (out : List OutRec) : List Nat :=
  out.filterMap fun r =>
    match r with
    | OutRec.emit _ i _ => some i
    | _ => none

/-- The number of per-line records of an output. -/
def emitCount (out : List OutRec) : Nat :=
  (out.filter OutRec.isEmit).length

/-- The line indices held in a before-buffer. -/
def bufIdx (st : ScanState) : List Nat :=
  st.before_buffer.map Prod.fst

/-! ### Small rewriting lemmas -/

lemma print_line_eq (cfg : ScanConfig) (c : Nat) (line : String) (i : Nat) :
    print_line_with_highlighted_text cfg.count c line i cfg.is_multiple_files
      cfg.file_name cfg.hl cfg.invert_match =
      (if cfg.count then c + 1 else c,
       if cfg.count then [] else [cfg.emitOf (i, line)]) := by
  by_cases h : cfg.count <;>
    simp [print_line_with_highlighted_text, ScanConfig.emitOf, ScanConfig.htext,
      ScanConfig.tag, h]

lemma flush_before_spec (cfg : ScanConfig) (buf : List (Nat × String)) :
    ∀ c, flush_before cfg c buf =
      (if cfg.count then c + buf.length else c,
       if cfg.count then [] else buf.map cfg.emitOf) := by
  induction buf with
  | nil => intro c; by_cases h : cfg.count <;> simp [flush_before, h]
  | cons b t ih =>
    intro c
    simp only [flush_before, print_line_eq, ih]
    by_cases h : cfg.count
    · simp only [h, if_true]
      refine Prod.ext ?_ (by simp)
      simp; omega
    · simp [h]

lemma process_step_match (cfg : ScanConfig) (st : ScanState) (index : Nat)
    (line : String) (h : (cfg.p line != cfg.invert_match) = true) :
    process_step cfg st index line =
      ({ current_count :=
           if cfg.count then st.current_count + st.before_buffer.length + 1
           else st.current_count,
         before_buffer := [], after_countdown := cfg.after_context },
       if cfg.count then []
       else st.before_buffer.map cfg.emitOf ++ [cfg.emitOf (index, line)]) := by
  simp only [process_step, h, if_true, flush_before_spec, print_line_eq]
  by_cases hc : cfg.count <;> simp [hc]

lemma process_step_after (cfg : ScanConfig) (st : ScanState) (index : Nat)
    (line : String) (h : (cfg.p line != cfg.invert_match) = false)
    (hcd : 0 < st.after_countdown) :
    process_step cfg st index line =
      ({ current_count :=
           if cfg.count then st.current_count + 1 else st.current_count,
         before_buffer := st.before_buffer,
         after_countdown := st.after_countdown - 1 },
       if cfg.count then [] else [cfg.emitOf (index, line)]) := by
  simp only [process_step, h, print_line_eq]
  by_cases hc : cfg.count <;> simp [hc, hcd]

lemma process_step_push (cfg : ScanConfig) (st : ScanState) (index : Nat)
    (line : String) (h : (cfg.p line != cfg.invert_match) = false)
    (hcd : ¬ 0 < st.after_countdown) :
    process_step cfg st index line =
      ({ current_count := st.current_count,
         before_buffer :=
           if cfg.before_context < st.before_buffer.length + 1 then
             (st.before_buffer ++ [(index, line)]).tail
           else st.before_buffer ++ [(index, line)],
         after_countdown := st.after_countdown }, []) := by
  simp [process_step, h, hcd]

lemma emitIndices_append (a b : List OutRec) :
    emitIndices (a ++ b) = emitIndices a ++ emitIndices b := by
  simp [emitIndices]

lemma emitIndices_map_emitOf (cfg : ScanConfig) (buf : List (Nat × String)) :
    emitIndices (buf.map cfg.emitOf) = buf.map Prod.fst := by
  induction buf with
  | nil => rfl
  | cons b t ih => simp [emitIndices, ScanConfig.emitOf] at ih ⊢; exact ih

lemma emitIndices_emitOf (cfg : ScanConfig) (b : Nat × String) :
    emitIndices [cfg.emitOf b] = [b.1] := by
  simp [emitIndices, ScanConfig.emitOf]

lemma emitIndices_notice (name e : String) :
    emitIndices [OutRec.notice name e] = [] := rfl

lemma emitCount_append (a b : List OutRec) :
    emitCount (a ++ b) = emitCount a + emitCount b := by
  simp [emitCount]

lemma emitCount_map_emitOf (cfg : ScanConfig) (buf : List (Nat × String)) :
    emitCount (buf.map cfg.emitOf) = buf.length := by
  induction buf with
  | nil => rfl
  | cons b t ih => simp [emitCount, ScanConfig.emitOf, OutRec.isEmit] at ih ⊢; exact ih

lemma emitCount_emitOf (cfg : ScanConfig) (b : Nat × String) :
    emitCount [cfg.emitOf b] = 1 := by
  simp [emitCount, ScanConfig.emitOf, OutRec.isEmit]

lemma emitCount_cons_emitOf (cfg : ScanConfig) (b : Nat × String) (out : List OutRec) :
    emitCount (cfg.emitOf b :: out) = emitCount out + 1 := by
  simp [emitCount, ScanConfig.emitOf, OutRec.isEmit]

lemma isNotice_emitOf (cfg : ScanConfig) (b : Nat × String) :
    OutRec.isNotice (cfg.emitOf b) = false := rfl

lemma filter_isNotice_map_emitOf (cfg : ScanConfig) (buf : List (Nat × String)) :
    (buf.map cfg.emitOf).filter OutRec.isNotice = [] := by
  induction buf with
  | nil => rfl
  | cons b t ih => simpa [isNotice_emitOf] using ih

/-! ### Order of emission -/

/-- Core invariant of the scan loop (print mode): provided the buffered
indices are strictly increasing, smaller than the current index, and the
buffer is empty while the after-countdown runs, the emitted indices are
strictly increasing, every emitted index is buffered-or-current-or-later,
and every index still buffered at the end is strictly above everything
emitted and is current-or-later unless it was already buffered. -/
lemma scan_order (cfg : ScanConfig) (hc : cfg.count = false)
    (lines : List (Except String String)) :
    ∀ (idx : Nat) (st : ScanState),
      (bufIdx st).Pairwise (· < ·) →
      (∀ j ∈ bufIdx st, j < idx) →
      (0 < st.after_countdown → st.before_buffer = []) →
      (emitIndices (process_loop cfg lines idx st).2).Pairwise (· < ·) ∧
      (∀ k ∈ emitIndices (process_loop cfg lines idx st).2,
          k ∈ bufIdx st ∨ idx ≤ k) ∧
      (∀ j ∈ bufIdx (process_loop cfg lines idx st).1,
        (∀ k ∈ emitIndices (process_loop cfg lines idx st).2, k < j) ∧
        (idx ≤ j ∨ j ∈ bufIdx st)) := by
  induction lines with
  | nil =>
    intro idx st h1 h2 h3
    simp only [process_loop]
    refine ⟨by simp [emitIndices], by simp [emitIndices], ?_⟩
    intro j hj
    exact ⟨by simp [emitIndices], Or.inr hj⟩
  | cons x rest ih =>
    intro idx st h1 h2 h3
    cases x with
    | error e =>
      simp only [process_loop]
      refine ⟨by simp [emitIndices], by simp [emitIndices], ?_⟩
      intro j hj
      exact ⟨by simp [emitIndices], Or.inr hj⟩
    | ok line =>
      obtain ⟨cc, buf, cd⟩ := st
      simp only [bufIdx] at h1 h2
      simp only [process_loop]
      by_cases hm : (cfg.p line != cfg.invert_match) = true
      · -- the match branch: flush the buffer, emit the line
        rw [process_step_match cfg ⟨cc, buf, cd⟩ idx line hm]
        simp only [hc, Bool.false_eq_true, if_false]
        obtain ⟨ih1, ih2, ih3⟩ := ih (idx + 1) ⟨cc, [], cfg.after_context⟩
          (by simp [bufIdx]) (by simp [bufIdx]) (fun _ => rfl)
        simp only [bufIdx, List.map_nil, List.not_mem_nil, false_or, or_false] at ih2 ih3
        constructor
        · simp only [emitIndices_append, emitIndices_map_emitOf, emitIndices_emitOf]
          rw [List.pairwise_append]
          refine ⟨?_, ih1, ?_⟩
          · rw [List.pairwise_append]
            refine ⟨h1, List.pairwise_singleton _ _, fun a ha b hb => ?_⟩
            simp only [List.mem_singleton] at hb
            subst hb
            exact h2 a ha
          · intro a ha b hb
            have hb2 := ih2 b hb
            simp only [List.mem_append, List.mem_singleton] at ha
            rcases ha with ha | rfl
            · have := h2 a ha; omega
            · omega
        constructor
        · intro k hk
          simp only [emitIndices_append, emitIndices_map_emitOf, emitIndices_emitOf,
            List.mem_append, List.mem_singleton] at hk
          rcases hk with (hk | rfl) | hk
          · exact Or.inl hk
          · exact Or.inr (le_refl _)
          · exact Or.inr (by have := ih2 _ hk; omega)
        · intro j hj
          obtain ⟨hj1, hj2⟩ := ih3 j hj
          constructor
          · intro k hk
            simp only [emitIndices_append, emitIndices_map_emitOf, emitIndices_emitOf,
              List.mem_append, List.mem_singleton] at hk
            rcases hk with (hk | rfl) | hk
            · have := h2 k hk; omega
            · omega
            · exact hj1 k hk
          · exact Or.inl (by omega)
      · by_cases hcd : 0 < cd
        · -- the after-context branch: the buffer is empty by the invariant
          have hbuf : buf = [] := h3 hcd
          subst hbuf
          rw [process_step_after cfg ⟨cc, [], cd⟩ idx line
            (by simpa using hm) hcd]
          simp only [hc, Bool.false_eq_true, if_false]
          obtain ⟨ih1, ih2, ih3⟩ := ih (idx + 1) ⟨cc, [], cd - 1⟩
            (by simp [bufIdx]) (by simp [bufIdx]) (fun _ => rfl)
          simp only [bufIdx, List.map_nil, List.not_mem_nil, false_or, or_false] at ih2 ih3
          constructor
          · simp only [emitIndices_append, emitIndices_emitOf]
            rw [List.pairwise_append]
            refine ⟨List.pairwise_singleton _ _, ih1, ?_⟩
            intro a ha b hb
            simp only [List.mem_singleton] at ha
            subst ha
            have := ih2 b hb; omega
          constructor
          · intro k hk
            simp only [emitIndices_append, emitIndices_emitOf, List.mem_append,
              List.mem_singleton] at hk
            rcases hk with rfl | hk
            · exact Or.inr (le_refl _)
            · exact Or.inr (by have := ih2 _ hk; omega)
          · intro j hj
            obtain ⟨hj1, hj2⟩ := ih3 j hj
            constructor
            · intro k hk
              simp only [emitIndices_append, emitIndices_emitOf, List.mem_append,
                List.mem_singleton] at hk
              rcases hk with rfl | hk
              · omega
              · exact hj1 k hk
            · exact Or.inl (by omega)
        · -- the buffering branch: push, evicting the oldest once over bound
          rw [process_step_push cfg ⟨cc, buf, cd⟩ idx line (by simpa using hm)
            (by simpa using hcd)]
          have hpair : ((buf ++ [(idx, line)]).map Prod.fst).Pairwise (· < ·) := by
            rw [List.map_append, List.pairwise_append]
            exact ⟨h1, by simp, fun a ha b hb => by simp at hb; subst hb; exact h2 a ha⟩
          have hsub :
              (if cfg.before_context < buf.length + 1 then
                (buf ++ [(idx, line)]).tail else buf ++ [(idx, line)]).Sublist
                (buf ++ [(idx, line)]) := by
            split
            · exact List.tail_sublist _
            · exact List.Sublist.refl _
          obtain ⟨ih1, ih2, ih3⟩ := ih (idx + 1)
            ⟨cc,
              if cfg.before_context < buf.length + 1 then
                (buf ++ [(idx, line)]).tail else buf ++ [(idx, line)], cd⟩
            (by
              simp only [bufIdx]
              exact hpair.sublist (hsub.map Prod.fst))
            (by
              simp only [bufIdx]
              intro j hj
              have hj2 := (hsub.map Prod.fst).subset hj
              rw [List.map_append] at hj2
              simp only [List.mem_append, List.map_cons, List.map_nil,
                List.mem_singleton] at hj2
              rcases hj2 with hj2 | hj2
              · have := h2 j hj2; omega
              · omega)
            (fun h0 => absurd h0 hcd)
          have hmem : ∀ j, j ∈ bufIdx
              (⟨cc,
                if cfg.before_context < buf.length + 1 then
                  (buf ++ [(idx, line)]).tail else buf ++ [(idx, line)], cd⟩ : ScanState) →
              j ∈ buf.map Prod.fst ∨ j = idx := by
            intro j hj
            simp only [bufIdx] at hj
            have hj2 := (hsub.map Prod.fst).subset hj
            rw [List.map_append] at hj2
            simp only [List.mem_append, List.map_cons, List.map_nil,
              List.mem_singleton] at hj2
            rcases hj2 with hj2 | hj2
            · exact Or.inl hj2
            · exact Or.inr hj2
          constructor
          · exact ih1
          constructor
          · intro k hk
            have := ih2 k hk
            rcases this with hkb | hk2
            · rcases hmem k hkb with hk3 | rfl
              · exact Or.inl hk3
              · exact Or.inr (le_refl _)
            · exact Or.inr (by omega)
          · intro j hj
            obtain ⟨hj1, hj2⟩ := ih3 j hj
            refine ⟨hj1, ?_⟩
            rcases hj2 with hj2 | hj2
            · exact Or.inl (by omega)
            · rcases hmem j hj2 with hj3 | rfl
              · exact Or.inr hj3
              · exact Or.inl (le_refl _)

/-- Invariant of the scan loop: whenever the after-countdown is positive
the before-buffer is empty (a match clears the buffer when it arms the
countdown, and nothing is buffered while it runs). -/
lemma countdown_empty (cfg : ScanConfig) (lines : List (Except String String)) :
    ∀ (idx : Nat) (st : ScanState),
      (0 < st.after_countdown → st.before_buffer = []) →
      0 < (process_loop cfg lines idx st).1.after_countdown →
      (process_loop cfg lines idx st).1.before_buffer = [] := by
  induction lines with
  | nil => intro idx st h; simpa [process_loop] using h
  | cons x rest ih =>
    intro idx st h
    cases x with
    | error e => simpa [process_loop] using h
    | ok line =>
      simp only [process_loop]
      apply ih
      by_cases hm : (cfg.p line != cfg.invert_match) = true
      · rw [process_step_match cfg st idx line hm]; intro _; rfl
      · by_cases hcd : 0 < st.after_countdown
        · rw [process_step_after cfg st idx line (by simpa using hm) hcd]
          intro _
          exact h hcd
        · rw [process_step_push cfg st idx line (by simpa using hm) hcd]
          intro h0
          exact absurd h0 hcd

/-- The before-buffer never exceeds `before_context` records. -/
lemma loop_len_le (cfg : ScanConfig) (lines : List (Except String String)) :
    ∀ (idx : Nat) (st : ScanState),
      st.before_buffer.length ≤ cfg.before_context →
      (process_loop cfg lines idx st).1.before_buffer.length ≤
        cfg.before_context := by
  induction lines with
  | nil => intro idx st h; simpa [process_loop] using h
  | cons x rest ih =>
    intro idx st h
    cases x with
    | error e => simpa [process_loop] using h
    | ok line =>
      simp only [process_loop]
      apply ih
      by_cases hm : (cfg.p line != cfg.invert_match) = true
      · rw [process_step_match cfg st idx line hm]; simp
      · by_cases hcd : 0 < st.after_countdown
        · rw [process_step_after cfg st idx line (by simpa using hm) hcd]; exact h
        · rw [process_step_push cfg st idx line (by simpa using hm) hcd]
          by_cases hlen : cfg.before_context < st.before_buffer.length + 1
          · simp only [hlen, if_true, List.length_tail, List.length_append]
            simp
            omega
          · simp only [hlen, if_false, List.length_append]
            simp
            omega

/-- The scan loop distributes over append as long as the first part reads
without error. -/
lemma process_loop_append_ok (cfg : ScanConfig) :
    ∀ (l1 l2 : List (Except String String)) (idx : Nat) (st : ScanState),
      (∀ x ∈ l1, ∃ s, x = Except.ok s) →
      process_loop cfg (l1 ++ l2) idx st =
        ((process_loop cfg l2 (idx + l1.length) (process_loop cfg l1 idx st).1).1,
         (process_loop cfg l1 idx st).2 ++
           (process_loop cfg l2 (idx + l1.length)
             (process_loop cfg l1 idx st).1).2) := by
  intro l1
  induction l1 with
  | nil => intro l2 idx st h; simp [process_loop]
  | cons x t ih =>
    intro l2 idx st h
    obtain ⟨s, rfl⟩ := h x (List.mem_cons_self x t)
    simp only [List.cons_append, process_loop, List.append_eq]
    rw [ih _ _ _ (fun y hy => h y (List.mem_cons_of_mem _ hy))]
    simp only [List.length_cons]
    rw [show idx + (t.length + 1) = idx + 1 + t.length by omega]
    simp

/-- A read error stops the loop at once: everything after it is ignored. -/
lemma process_loop_error (cfg : ScanConfig) (e : String)
    (post : List (Except String String)) (idx : Nat) (st : ScanState) :
    process_loop cfg (Except.error e :: post) idx st =
      (st, [OutRec.notice cfg.file_name e]) := rfl

lemma emitIndices_filter_isNotice (out : List OutRec) :
    emitIndices (out.filter OutRec.isNotice) = [] := by
  induction out with
  | nil => rfl
  | cons r t ih => cases r <;> simpa [OutRec.isNotice, emitIndices] using ih

lemma emitIndices_summary_chunk (cfg : ScanConfig) (n : Nat) :
    emitIndices (if cfg.count then
        [OutRec.summary (if cfg.is_multiple_files then some cfg.file_name else none) n]
      else []) = [] := by
  by_cases h : cfg.count <;> simp [h, emitIndices]

/-! ### The scan with no context (`before = after = 0`) is a filter -/

lemma no_context_loop (cfg : ScanConfig) (hb : cfg.before_context = 0)
    (ha : cfg.after_context = 0) (hc : cfg.count = false) (xs : List String) :
    ∀ (idx c : Nat),
      process_loop cfg (xs.map Except.ok) idx ⟨c, [], 0⟩ =
        (⟨c, [], 0⟩,
         ((xs.enumFrom idx).filter fun il => cfg.p il.2 != cfg.invert_match).map
           cfg.emitOf) := by
  induction xs with
  | nil => intro idx c; simp [process_loop]
  | cons x t ih =>
    intro idx c
    simp only [List.map_cons, process_loop]
    by_cases hm : (cfg.p x != cfg.invert_match) = true
    · rw [process_step_match cfg _ idx x hm]
      simp only [hc, ha, Bool.false_eq_true, if_false, List.map_nil, List.nil_append]
      rw [ih]
      simp [List.enumFrom, hm]
    · rw [process_step_push cfg _ idx x (by simpa using hm) (by simp)]
      simp [hb, ih, List.enumFrom, hm]

/-! ### Count mode agrees with print mode -/

lemma loop_modes (cfg : ScanConfig) (lines : List (Except String String)) :
    ∀ (idx c : Nat) (buf : List (Nat × String)) (a : Nat),
      process_loop { cfg with count := true } lines idx ⟨c, buf, a⟩ =
        (⟨c + emitCount (process_loop { cfg with count := false } lines idx
            ⟨0, buf, a⟩).2,
          (process_loop { cfg with count := false } lines idx ⟨0, buf, a⟩).1.before_buffer,
          (process_loop { cfg with count := false } lines idx ⟨0, buf, a⟩).1.after_countdown⟩,
         (process_loop { cfg with count := false } lines idx
            ⟨0, buf, a⟩).2.filter OutRec.isNotice) := by
  induction lines with
  | nil => intro idx c buf a; simp [process_loop, emitCount]
  | cons x rest ih =>
    intro idx c buf a
    cases x with
    | error e =>
      simp [process_loop, emitCount, OutRec.isEmit, OutRec.isNotice]
    | ok line =>
      simp only [process_loop]
      by_cases hm : (cfg.p line != cfg.invert_match) = true
      · rw [process_step_match _ _ idx line (by simpa using hm),
          process_step_match _ _ idx line (by simpa using hm)]
        simp [ih, emitCount_append, emitCount_map_emitOf, emitCount_emitOf,
          emitCount_cons_emitOf, List.filter_append, filter_isNotice_map_emitOf,
          isNotice_emitOf]
        omega
      · by_cases hcd : 0 < a
        · rw [process_step_after _ _ idx line (by simpa using hm) (by simpa using hcd),
            process_step_after _ _ idx line (by simpa using hm) (by simpa using hcd)]
          simp [ih, emitCount_append, emitCount_emitOf, emitCount_cons_emitOf,
            List.filter_append, isNotice_emitOf]
          omega
        · rw [process_step_push _ _ idx line (by simpa using hm) (by simpa using hcd),
            process_step_push _ _ idx line (by simpa using hm) (by simpa using hcd)]
          simp [ih]

lemma process_line_modes (cfg : ScanConfig) (lines : List (Except String String)) :
    process_line { cfg with count := true } lines =
      (process_line { cfg with count := false } lines).filter OutRec.isNotice ++
        [OutRec.summary (if cfg.is_multiple_files then some cfg.file_name else none)
          (emitCount (process_line { cfg with count := false } lines))] := by
  have h := loop_modes cfg lines 0 0 [] 0
  simp only [process_line, initState]
  rw [h]
  simp

/-! ### Stream-name labeling -/

lemma name_tag_emitOf (cfg : ScanConfig) (b : Nat × String) :
    OutRec.name_tag (cfg.emitOf b) = some cfg.tag := rfl

lemma step_out_tags (cfg : ScanConfig) (st : ScanState) (idx : Nat) (line : String) :
    ∀ r ∈ (process_step cfg st idx line).2, ∀ tg,
      OutRec.name_tag r = some tg → tg = cfg.tag := by
  intro r hr tg htg
  by_cases hm : (cfg.p line != cfg.invert_match) = true
  · rw [process_step_match cfg st idx line hm] at hr
    by_cases hcnt : cfg.count
    · simp [hcnt] at hr
    · simp only [hcnt, Bool.false_eq_true, if_false, List.mem_append,
        List.mem_map, List.mem_singleton] at hr
      rcases hr with ⟨b, hb, rfl⟩ | rfl
      · rw [name_tag_emitOf] at htg
        exact (Option.some.inj htg).symm
      · rw [name_tag_emitOf] at htg
        exact (Option.some.inj htg).symm
  · by_cases hcd : 0 < st.after_countdown
    · rw [process_step_after cfg st idx line (by simpa using hm) hcd] at hr
      by_cases hcnt : cfg.count
      · simp [hcnt] at hr
      · simp only [hcnt, Bool.false_eq_true, if_false, List.mem_singleton] at hr
        subst hr
        rw [name_tag_emitOf] at htg
        exact (Option.some.inj htg).symm
    · rw [process_step_push cfg st idx line (by simpa using hm) hcd] at hr
      simp at hr

lemma loop_tags (cfg : ScanConfig) (lines : List (Except String String)) :
    ∀ (idx : Nat) (st : ScanState) (r : OutRec),
      r ∈ (process_loop cfg lines idx st).2 →
      ∀ tg, OutRec.name_tag r = some tg → tg = cfg.tag := by
  induction lines with
  | nil => intro idx st r hr; simp [process_loop] at hr
  | cons x rest ih =>
    intro idx st r hr tg htg
    cases x with
    | error e =>
      rw [process_loop_error] at hr
      simp only [List.mem_singleton] at hr
      subst hr
      simp [OutRec.name_tag] at htg
    | ok line =>
      simp only [process_loop, List.mem_append] at hr
      rcases hr with hr | hr
      · exact step_out_tags cfg st idx line r hr tg htg
      · exact ih (idx + 1) _ r hr tg htg

lemma process_line_tags (cfg : ScanConfig) (lines : List (Except String String)) :
    ∀ r ∈ process_line cfg lines, ∀ tg, OutRec.name_tag r = some tg →
      tg = cfg.tag := by
  intro r hr tg htg
  simp only [process_line, List.mem_append] at hr
  rcases hr with hr | hr
  · exact loop_tags cfg lines 0 initState r hr tg htg
  · by_cases hc : cfg.count
    · simp only [hc, if_true, List.mem_singleton] at hr
      subst hr
      simp only [OutRec.name_tag, Option.some.injEq] at htg
      rw [← htg]
      rfl
    · simp [hc] at hr

lemma process_file_open_error (fs : FileSystem) (p : String → Bool)
    (hl : String → String) (args : Grep) (im : Bool) (f : String) (e : String)
    (h : fs.open_file f = Except.error e) :
    process_file fs p hl args im f = ([], some e) := by
  simp [process_file, h]

lemma process_file_open_ok (fs : FileSystem) (p : String → Bool)
    (hl : String → String) (args : Grep) (im : Bool) (f : String)
    (lines : List (Except String String)) (h : fs.open_file f = Except.ok lines) :
    process_file fs p hl args im f =
      (process_line (mk_scan_config p hl args im f) lines, none) := by
  simp [process_file, h]

lemma run_files_tags (fs : FileSystem) (p : String → Bool) (hl : String → String)
    (args : Grep) (im : Bool) :
    ∀ (fl : List String) (r : OutRec),
      r ∈ (run_files fs p hl args im fl).1 →
      ∀ tg, OutRec.name_tag r = some tg → tg.isSome = im := by
  intro fl
  induction fl with
  | nil => intro r hr; simp [run_files] at hr
  | cons f t ih =>
    intro r hr tg htg
    simp only [run_files] at hr
    cases hpf : fs.open_file f with
    | error e =>
      rw [process_file_open_error fs p hl args im f e hpf] at hr
      simp at hr
    | ok lines =>
      rw [process_file_open_ok fs p hl args im f lines hpf] at hr
      simp only [List.mem_append] at hr
      rcases hr with hr | hr
      · have := process_line_tags (mk_scan_config p hl args im f) lines r hr tg htg
        subst this
        cases im <;> rfl
      · exact ih r hr tg htg

lemma run_inputs_tags (fs : FileSystem) (p : String → Bool) (hl : String → String)
    (args : Grep) (im : Bool) :
    ∀ (il : List String) (r : OutRec),
      r ∈ (run_inputs fs p hl args im il).1 →
      ∀ tg, OutRec.name_tag r = some tg → tg.isSome = im := by
  intro il
  induction il with
  | nil => intro r hr; simp [run_inputs] at hr
  | cons i t ih =>
    intro r hr tg htg
    simp only [run_inputs] at hr
    cases h2 : (run_files fs p hl args im
        (if args.recursive then (fs.walk i).filter fs.is_file else [i])).2 with
    | some e =>
      rw [h2] at hr
      simp only [List.mem_append] at hr
      exact run_files_tags fs p hl args im _ r hr tg htg
    | none =>
      rw [h2] at hr
      simp only [List.mem_append] at hr
      rcases hr with hr | hr
      · exact run_files_tags fs p hl args im _ r hr tg htg
      · exact ih r hr tg htg

/-! ### Verbatim output in invert mode -/

lemma invert_verbatim_loop (cfg : ScanConfig) (hinv : cfg.invert_match = true)
    (Q : Nat → String → Prop) :
    ∀ (xs : List String) (idx : Nat) (st : ScanState),
      (∀ b ∈ st.before_buffer, Q b.1 b.2) →
      (∀ (k : Nat) (l : String), xs[k]? = some l → Q (idx + k) l) →
      ∀ tg i t, OutRec.emit tg i t ∈ (process_loop cfg (xs.map Except.ok) idx st).2 →
        Q i t := by
  intro xs
  induction xs with
  | nil => intro idx st hQb hQl tg i t h; simp [process_loop] at h
  | cons x rest ih =>
    intro idx st hQb hQl tg i t h
    have hemit : ∀ b : Nat × String, cfg.emitOf b = OutRec.emit cfg.tag b.1 b.2 := by
      intro b; simp [ScanConfig.emitOf, ScanConfig.htext, hinv]
    have hQx : Q idx x := by
      have := hQl 0 x (by simp)
      simpa using this
    have hQrest : ∀ (k : Nat) (l : String), rest[k]? = some l → Q (idx + 1 + k) l := by
      intro k l hk
      rw [show idx + 1 + k = idx + (k + 1) by omega]
      exact hQl (k + 1) l (by simpa using hk)
    simp only [List.map_cons, process_loop, List.mem_append] at h
    rcases h with h | h
    · by_cases hm : (cfg.p x != cfg.invert_match) = true
      · rw [process_step_match cfg st idx x hm] at h
        by_cases hcnt : cfg.count
        · simp [hcnt] at h
        · simp only [hcnt, Bool.false_eq_true, if_false, List.mem_append,
            List.mem_map, List.mem_singleton] at h
          rcases h with ⟨b, hb, hb2⟩ | h
          · rw [hemit] at hb2
            simp only [OutRec.emit.injEq] at hb2
            obtain ⟨-, h1, h2⟩ := hb2
            subst h1
            subst h2
            exact hQb b hb
          · rw [hemit] at h
            simp only [OutRec.emit.injEq] at h
            obtain ⟨-, h1, h2⟩ := h
            subst h1
            subst h2
            exact hQx
      · by_cases hcd : 0 < st.after_countdown
        · rw [process_step_after cfg st idx x (by simpa using hm) hcd] at h
          by_cases hcnt : cfg.count
          · simp [hcnt] at h
          · simp only [hcnt, Bool.false_eq_true, if_false, List.mem_singleton] at h
            rw [hemit] at h
            simp only [OutRec.emit.injEq] at h
            obtain ⟨-, h1, h2⟩ := h
            subst h1
            subst h2
            exact hQx
        · rw [process_step_push cfg st idx x (by simpa using hm) hcd] at h
          simp at h
    · by_cases hm : (cfg.p x != cfg.invert_match) = true
      · rw [process_step_match cfg st idx x hm] at h
        refine ih (idx + 1) _ ?_ hQrest tg i t h
        simp
      · by_cases hcd : 0 < st.after_countdown
        · rw [process_step_after cfg st idx x (by simpa using hm) hcd] at h
          refine ih (idx + 1) _ ?_ hQrest tg i t h
          intro b hb
          exact hQb b hb
        · rw [process_step_push cfg st idx x (by simpa using hm) hcd] at h
          refine ih (idx + 1) _ ?_ hQrest tg i t h
          intro b hb
          have hsub :
              (if cfg.before_context < st.before_buffer.length + 1 then
                (st.before_buffer ++ [(idx, x)]).tail
              else st.before_buffer ++ [(idx, x)]).Sublist
                (st.before_buffer ++ [(idx, x)]) := by
            split
            · exact List.tail_sublist _
            · exact List.Sublist.refl _
          have hb2 := hsub.subset hb
          simp only [List.mem_append, List.mem_singleton] at hb2
          rcases hb2 with hb2 | rfl
          · exact hQb b hb2
          · exact hQx

/-- With error-free input the loop prints no read-error notice. -/
lemma loop_no_notice (cfg : ScanConfig) (lines : List (Except String String))
    (hok : ∀ x ∈ lines, ∃ s, x = Except.ok s) :
    ∀ (idx : Nat) (st : ScanState),
      ((process_loop cfg lines idx st).2).filter OutRec.isNotice = [] := by
  induction lines with
  | nil => intro idx st; simp [process_loop]
  | cons x rest ih =>
    intro idx st
    obtain ⟨s, rfl⟩ := hok x (List.mem_cons_self x rest)
    simp only [process_loop, List.filter_append]
    rw [ih (fun y hy => hok y (List.mem_cons_of_mem _ hy))]
    rw [List.append_nil]
    by_cases hm : (cfg.p s != cfg.invert_match) = true
    · rw [process_step_match cfg st idx s hm]
      by_cases hcnt : cfg.count
      · simp [hcnt]
      · simp only [hcnt, Bool.false_eq_true, if_false, List.filter_append,
          filter_isNotice_map_emitOf]
        simp [isNotice_emitOf]
    · by_cases hcd : 0 < st.after_countdown
      · rw [process_step_after cfg st idx s (by simpa using hm) hcd]
        by_cases hcnt : cfg.count
        · simp [hcnt]
        · simp [hcnt, isNotice_emitOf]
      · rw [process_step_push cfg st idx s (by simpa using hm) hcd]
        simp

/-- `process_line_modes` restated for a configuration known to be in count
mode. -/
lemma process_line_count_eq (cfg : ScanConfig) (hc : cfg.count = true)
    (lines : List (Except String String)) :
    process_line cfg lines =
      (process_line { cfg with count := false } lines).filter OutRec.isNotice ++
        [OutRec.summary (if cfg.is_multiple_files then some cfg.file_name else none)
          (emitCount (process_line { cfg with count := false } lines))] := by
  obtain ⟨p, hl, inv, cnt, im, fn, ac, bc⟩ := cfg
  simp only at hc
  subst hc
  exact process_line_modes ⟨p, hl, inv, true, im, fn, ac, bc⟩ lines

/-- The whole-stream form of `no_context_loop`. -/
lemma process_line_no_context (cfg : ScanConfig) (xs : List String)
    (hb : cfg.before_context = 0) (ha : cfg.after_context = 0)
    (hc : cfg.count = false) :
    process_line cfg (xs.map Except.ok) =
      ((xs.enum.filter fun il => cfg.p il.2 != cfg.invert_match).map cfg.emitOf) := by
  have h := no_context_loop cfg hb ha hc xs 0 0
  simp only [process_line]
  rw [show initState = (⟨0, [], 0⟩ : ScanState) from rfl, h]
  simp [List.enum, hc]

/-- The input loop of `main` aborts at the first path that fails to open,
keeping the output of the paths before it. -/
lemma run_inputs_abort (fs : FileSystem) (p : String → Bool)
    (hl : String → String) (args : Grep) (im : Bool)
    (hrec : args.recursive = false) (a : String) (e : String)
    (hopen : fs.open_file a = Except.error e) :
    ∀ (pre : List String) (post : List String),
      (∀ x ∈ pre, ∃ lines, fs.open_file x = Except.ok lines) →
      run_inputs fs p hl args im (pre ++ a :: post) =
        ((pre.map fun x => (process_file fs p hl args im x).1).flatten, some e) := by
  intro pre
  induction pre with
  | nil =>
    intro post hpre
    simp only [List.nil_append, run_inputs, hrec, Bool.false_eq_true, if_false]
    rw [show run_files fs p hl args im [a] = ([], some e) from by
      simp [run_files, process_file_open_error fs p hl args im a e hopen]]
    simp
  | cons x t ih =>
    intro post hpre
    obtain ⟨lines, hlx⟩ := hpre x (List.mem_cons_self x t)
    simp only [List.cons_append, run_inputs, hrec, Bool.false_eq_true, if_false,
      List.append_eq]
    rw [show run_files fs p hl args im [x] =
        (process_line (mk_scan_config p hl args im x) lines ++ [], none) from by
      simp only [run_files, process_file_open_ok fs p hl args im x lines hlx]]
    rw [ih post (fun y hy => hpre y (List.mem_cons_of_mem _ hy))]
    simp [process_file_open_ok fs p hl args im x lines hlx]

/-! ### The claims -/

/-- C1, counterexample: with inputs `["a", "b"]` where opening `a` fails,
the open error propagates through `process_file(...)?` and `main` returns
it at once: the run is aborted with no output, and `b` — which would have
produced a match — is never processed.  This contradicts the claim that a
resolution error only causes that input to be skipped. -/
theorem c1_resolution_error_cex :
    main_run fs_c1 args_c1 p_true hl_id [] = ([], some "nofile") := by decide

/-- C1, amended: a resolution error on one path aborts the run.  With the
failing path somewhere in the input list and every earlier path opening
fine, `main` returns the open error; the paths after the failing one are
never processed and contribute no output, while the earlier paths have
already been processed normally. -/
theorem c1_resolution_error_aborts (fs : FileSystem) (args : Grep)
    (p : String → Bool) (hl : String → String) (sl : List (Except String String))
    (pre : List String) (a : String) (post : List String) (e : String)
    (hrec : args.recursive = false) (hin : args.inputs = pre ++ a :: post)
    (hpre : ∀ x ∈ pre, ∃ lines, fs.open_file x = Except.ok lines)
    (hopen : fs.open_file a = Except.error e) :
    main_run fs args p hl sl =
      ((pre.map fun x =>
          (process_file fs p hl args (decide (1 < args.inputs.length)) x).1).flatten,
       some e) := by
  simp only [main_run, hin]
  rw [show (pre ++ a :: post).isEmpty = false from by cases pre <;> rfl]
  rw [run_inputs_abort fs p hl args _ hrec a e hopen pre post hpre]
  simp

/-- C1, witness for the amended claim at a concrete input. -/
theorem c1_resolution_error_aborts_witness :
    args_c1.recursive = false ∧ args_c1.inputs = [] ++ "a" :: ["b"] ∧
    fs_c1.open_file "a" = Except.error "nofile" ∧
    main_run fs_c1 args_c1 p_true hl_id [] =
      ((([] : List String).map fun x =>
          (process_file fs_c1 p_true hl_id args_c1
            (decide (1 < args_c1.inputs.length)) x).1).flatten, some "nofile") :=
  ⟨rfl, rfl, rfl,
    c1_resolution_error_aborts fs_c1 args_c1 p_true hl_id [] [] "a" ["b"]
      "nofile" rfl rfl (by intro x hx; simp at hx) rfl⟩

/-- C2, counterexample: one recursive input argument resolving to two
regular files.  Two input sources are resolved, yet `is_multiple_files`
is computed as `inputs.len() > 1 = false`, so both emitted lines carry no
stream name — contradicting "true exactly when more than one input source
is resolved". -/
theorem c2_multi_source_flag_cex :
    spec_resolved_count fs_c2 args_c2 = 2 ∧
    main_run fs_c2 args_c2 p_true hl_id [] =
      ([OutRec.emit none 0 "x", OutRec.emit none 0 "y"], none) := by
  constructor <;> decide

/-- C2, amended: the disambiguation flag is `inputs.len() > 1`, computed
from the number of input path arguments (not from the number of resolved
sources).  Within a stream every emitted line and count summary carries
the stream name exactly when the configuration's flag is set, and in a
whole run they carry a name exactly when more than one input path argument
was supplied. -/
theorem c2_multi_source_labeling :
    (∀ (cfg : ScanConfig) (lines : List (Except String String)),
      ∀ r ∈ process_line cfg lines, ∀ tg, OutRec.name_tag r = some tg →
        tg = (if cfg.is_multiple_files then some cfg.file_name else none)) ∧
    (∀ (fs : FileSystem) (args : Grep) (p : String → Bool)
      (hl : String → String) (sl : List (Except String String)),
      ∀ r ∈ (main_run fs args p hl sl).1, ∀ tg, OutRec.name_tag r = some tg →
        tg.isSome = decide (1 < args.inputs.length)) := by
  constructor
  · intro cfg lines r hr tg htg
    exact process_line_tags cfg lines r hr tg htg
  · intro fs args p hl sl r hr tg htg
    simp only [main_run] at hr
    rw [List.mem_append] at hr
    rcases hr with hr | hr
    · by_cases hin : args.inputs.isEmpty
      · rw [if_pos hin] at hr
        have htag := process_line_tags _ _ r hr tg htg
        rw [htag]
        have hnil : args.inputs = [] := by
          cases hi : args.inputs
          · rfl
          · rw [hi] at hin; simp [List.isEmpty] at hin
        rw [hnil]
        rfl
      · rw [if_neg hin] at hr
        simp at hr
    · exact run_inputs_tags fs p hl args (decide (1 < args.inputs.length))
        args.inputs r hr tg htg

/-- C2, witness for the amended claim: a two-argument run in which an
emitted record carries its stream name. -/
theorem c2_multi_source_labeling_witness :
    OutRec.emit (some "a") 0 "m" ∈ (main_run fs_c2b args_c1 p_true hl_id []).1 ∧
    (some "a" : Option String).isSome = decide (1 < args_c1.inputs.length) :=
  ⟨by decide,
    c2_multi_source_labeling.2 fs_c2b args_c1 p_true hl_id []
      (OutRec.emit (some "a") 0 "m") (by decide) (some "a") rfl⟩

/-- C3: for every stream, predicate and context configuration, count mode
prints exactly the read-error notices print mode would print, plus one
summary record whose integer is the number of per-line records print mode
emits; in particular count mode produces no per-line output. -/
theorem c3_count_consistency (cfg : ScanConfig)
    (lines : List (Except String String)) :
    process_line { cfg with count := true } lines =
      (process_line { cfg with count := false } lines).filter OutRec.isNotice ++
        [OutRec.summary (if cfg.is_multiple_files then some cfg.file_name else none)
          (emitCount (process_line { cfg with count := false } lines))] :=
  process_line_modes cfg lines

/-- C4: for every stream, predicate and context configuration, no line
index appears twice among the emitted records, even when the after-context
window of one match overlaps the before-context window of a later match
(a line consumed by the running after-countdown is checked before the
before-buffer ever sees it). -/
theorem c4_at_most_once (cfg : ScanConfig)
    (lines : List (Except String String)) :
    (emitIndices (process_line cfg lines)).Nodup := by
  by_cases hc : cfg.count
  · rw [process_line_count_eq cfg hc, emitIndices_append,
      emitIndices_filter_isNotice]
    simp [emitIndices]
  · have hc2 : cfg.count = false := by simpa using hc
    have h := (scan_order cfg hc2 lines 0 initState
      (by simp [bufIdx, initState]) (by simp [bufIdx, initState])
      (by intro h0; simp [initState] at h0)).1
    have hpl : emitIndices (process_line cfg lines) =
        emitIndices (process_loop cfg lines 0 initState).2 := by
      simp [process_line, hc2]
    rw [hpl]
    exact h.imp fun hab => Nat.ne_of_lt hab

/-- C5: with `before = after = 0` in print mode, the output is exactly the
enumerated lines satisfying the (possibly inverted) predicate, in stream
order, each printed through the match-or-verbatim text transform. -/
theorem c5_no_context_correctness (cfg : ScanConfig) (xs : List String)
    (hb : cfg.before_context = 0) (ha : cfg.after_context = 0)
    (hc : cfg.count = false) :
    process_line cfg (xs.map Except.ok) =
      ((xs.enum.filter fun il => cfg.p il.2 != cfg.invert_match).map
        cfg.emitOf) :=
  process_line_no_context cfg xs hb ha hc

/-- C5, witness at a concrete stream. -/
theorem c5_no_context_correctness_witness :
    cfg_c5.before_context = 0 ∧ cfg_c5.after_context = 0 ∧
    cfg_c5.count = false ∧
    process_line cfg_c5 (xs_c5.map Except.ok) =
      ((xs_c5.enum.filter fun il => cfg_c5.p il.2 != cfg_c5.invert_match).map
        cfg_c5.emitOf) :=
  ⟨rfl, rfl, rfl, c5_no_context_correctness cfg_c5 xs_c5 rfl rfl rfl⟩

/-- C6: a line still sitting in the before-buffer when the stream ends was
never emitted and never counted: its index is absent from the output. -/
theorem c6_unflushed_tail (cfg : ScanConfig)
    (lines : List (Except String String)) (j : Nat)
    (hj : j ∈ bufIdx (process_loop cfg lines 0 initState).1) :
    j ∉ emitIndices (process_line cfg lines) := by
  by_cases hc : cfg.count
  · rw [process_line_count_eq cfg hc, emitIndices_append,
      emitIndices_filter_isNotice]
    simp [emitIndices]
  · have hc2 : cfg.count = false := by simpa using hc
    have h := (scan_order cfg hc2 lines 0 initState
      (by simp [bufIdx, initState]) (by simp [bufIdx, initState])
      (by intro h0; simp [initState] at h0)).2.2
    have hpl : emitIndices (process_line cfg lines) =
        emitIndices (process_loop cfg lines 0 initState).2 := by
      simp [process_line, hc2]
    rw [hpl]
    intro hmem
    have := (h j hj).1 j hmem
    omega

/-- C6, witness: with `before = 1`, the line after the single match is
buffered, the stream ends, and its index 1 is never emitted. -/
theorem c6_unflushed_tail_witness :
    (1 : Nat) ∈ bufIdx (process_loop cfg_c6 lines_c6 0 initState).1 ∧
    (1 : Nat) ∉ emitIndices (process_line cfg_c6 lines_c6) :=
  ⟨by decide, c6_unflushed_tail cfg_c6 lines_c6 1 (by decide)⟩

/-- C7: at the end of every per-line step the look-behind buffer holds at
most `before_context` records, and the buffer after the next step is a
suffix of the previous buffer with the new record appended — i.e. records
enter at the back and are evicted only from the front, oldest first. -/
theorem c7_before_buffer_bound (cfg : ScanConfig) (xs : List String)
    (n : Nat) :
    (state_after cfg (xs.map Except.ok) n).before_buffer.length ≤
      cfg.before_context ∧
    List.IsSuffix (state_after cfg (xs.map Except.ok) (n + 1)).before_buffer
      ((state_after cfg (xs.map Except.ok) n).before_buffer ++
        (xs[n]?.elim [] fun l => [(n, l)])) := by
  constructor
  · exact loop_len_le cfg _ 0 initState (by simp [initState])
  · cases hn : xs[n]? with
    | none =>
      have hlen : xs.length ≤ n := by
        by_contra hlt
        rw [List.getElem?_eq_getElem (by omega)] at hn
        exact Option.noConfusion hn
      have htake : (xs.map (Except.ok : String → Except String String)).take (n + 1) =
          (xs.map (Except.ok : String → Except String String)).take n := by
        rw [List.take_of_length_le (by simp; omega),
          List.take_of_length_le (by simp; omega)]
      simp only [state_after, htake, Option.elim]
      simp
    | some l =>
      have hlt : n < xs.length := by
        by_contra hge
        rw [List.getElem?_eq_none (by omega)] at hn
        exact Option.noConfusion hn
      have htake : (xs.map (Except.ok : String → Except String String)).take (n + 1) =
          (xs.map (Except.ok : String → Except String String)).take n ++
            [Except.ok l] := by
        rw [List.take_succ]
        congr 1
        rw [List.getElem?_map, hn]
        rfl
      have hok : ∀ x ∈ (xs.map (Except.ok : String → Except String String)).take n,
          ∃ s, x = Except.ok s := by
        intro x hx
        obtain ⟨s, -, rfl⟩ := List.mem_map.mp (List.take_subset _ _ hx)
        exact ⟨s, rfl⟩
      have hidx : ((xs.map (Except.ok : String → Except String String)).take n).length
          = n := by
        simp [List.length_take]
        omega
      have hdec := process_loop_append_ok cfg
        ((xs.map (Except.ok : String → Except String String)).take n)
        [Except.ok l] 0 initState hok
      simp only [state_after, htake, hdec, hidx, Nat.zero_add, process_loop,
        Option.elim]
      by_cases hm : (cfg.p l != cfg.invert_match) = true
      · rw [process_step_match cfg _ n l hm]
        exact List.nil_suffix
      · by_cases hcd :
          0 < (process_loop cfg ((xs.map Except.ok).take n) 0 initState).1.after_countdown
        · have hbuf :
              (process_loop cfg ((xs.map Except.ok).take n) 0
                initState).1.before_buffer = [] :=
            countdown_empty cfg _ 0 initState
              (by intro h0; simp [initState] at h0) hcd
          rw [process_step_after cfg _ n l (by simpa using hm) hcd]
          rw [hbuf]
          exact List.nil_suffix
        · rw [process_step_push cfg _ n l (by simpa using hm) hcd]
          by_cases hlen2 : cfg.before_context <
              (process_loop cfg ((xs.map Except.ok).take n) 0
                initState).1.before_buffer.length + 1
          · simp only [List.length_append, List.length_singleton, hlen2, if_true]
            exact List.tail_suffix _
          · simp only [List.length_append, List.length_singleton, hlen2, if_false]
            exact List.suffix_refl _

/-- C8: a mid-stream read failure ends that stream's scan at once (the
lines after the error are never looked at), prints a notice naming the
stream, and — at the `main` level — the following stream is still
processed in full and the run terminates without error. -/
theorem c8_read_failure_recovery (cfg : ScanConfig) (fs : FileSystem)
    (p : String → Bool) (hl : String → String)
    (sl : List (Except String String)) (args : Grep) (a b : String)
    (pre post bl : List (Except String String)) (e : String)
    (hpre : ∀ x ∈ pre, ∃ s, x = Except.ok s)
    (hrec : args.recursive = false) (hin : args.inputs = [a, b])
    (ha : fs.open_file a = Except.ok (pre ++ Except.error e :: post))
    (hb : fs.open_file b = Except.ok bl) :
    process_line cfg (pre ++ Except.error e :: post) =
        process_line cfg (pre ++ [Except.error e]) ∧
    OutRec.notice cfg.file_name e ∈
        process_line cfg (pre ++ Except.error e :: post) ∧
    main_run fs args p hl sl =
      (process_line (mk_scan_config p hl args true a)
          (pre ++ Except.error e :: post) ++
        process_line (mk_scan_config p hl args true b) bl, none) := by
  refine ⟨?_, ?_, ?_⟩
  · have h1 := process_loop_append_ok cfg pre (Except.error e :: post) 0
      initState hpre
    have h2 := process_loop_append_ok cfg pre [Except.error e] 0 initState hpre
    simp only [process_line, h1, h2, process_loop_error]
  · have h1 := process_loop_append_ok cfg pre (Except.error e :: post) 0
      initState hpre
    simp only [process_line, h1, process_loop_error]
    simp
  · have him : decide (1 < ([a, b] : List String).length) = true := rfl
    simp only [main_run, hin, List.isEmpty_cons, Bool.false_eq_true, if_false,
      him, run_inputs, hrec, run_files]
    rw [process_file_open_ok fs p hl args true a _ ha,
      process_file_open_ok fs p hl args true b _ hb]
    simp

/-- C8, witness: stream `a` dies on its second line, stream `b` is still
processed, and the run ends without error. -/
theorem c8_read_failure_recovery_witness :
    args_c1.recursive = false ∧ args_c1.inputs = ["a", "b"] ∧
    fs_c8.open_file "a" =
      Except.ok ([Except.ok "m"] ++ Except.error "bad" :: [Except.ok "zz"]) ∧
    main_run fs_c8 args_c1 p_m hl_id [] =
      (process_line (mk_scan_config p_m hl_id args_c1 true "a")
          ([Except.ok "m"] ++ Except.error "bad" :: [Except.ok "zz"]) ++
        process_line (mk_scan_config p_m hl_id args_c1 true "b")
          [Except.ok "m"], none) :=
  ⟨rfl, rfl, rfl,
    (c8_read_failure_recovery (mk_scan_config p_m hl_id args_c1 true "a")
      fs_c8 p_m hl_id [] args_c1 "a" "b" [Except.ok "m"] [Except.ok "zz"]
      [Except.ok "m"] "bad"
      (by intro x hx; simp at hx; exact ⟨"m", hx⟩) rfl rfl
      rfl rfl).2.2⟩

/-- C9: in invert mode every emitted line reproduces the stream's text at
its index verbatim (the highlighter is never applied), and with no context
the emitted indices are exactly those whose line satisfies the XOR of the
pattern result with the invert flag. -/
theorem c9_invert_mode (cfg : ScanConfig) (xs : List String)
    (hinv : cfg.invert_match = true) :
    (∀ tg i t, OutRec.emit tg i t ∈ process_line cfg (xs.map Except.ok) →
        xs[i]? = some t) ∧
    (cfg.before_context = 0 → cfg.after_context = 0 → cfg.count = false →
      emitIndices (process_line cfg (xs.map Except.ok)) =
        ((xs.enum.filter fun il => cfg.p il.2 != cfg.invert_match).map
          Prod.fst)) := by
  constructor
  · intro tg i t h
    simp only [process_line, List.mem_append] at h
    rcases h with h | h
    · exact invert_verbatim_loop cfg hinv (fun i t => xs[i]? = some t) xs 0
        initState (by simp [initState]) (by intro k l hk; simpa using hk)
        tg i t h
    · by_cases hc : cfg.count <;> simp [hc] at h
  · intro hb ha hc
    rw [process_line_no_context cfg xs hb ha hc, emitIndices_map_emitOf]

/-- C9, witness: the inverted match at index 1 is emitted verbatim even
though the highlighter would have rewritten it, and the emitted indices
are the complement of the matches. -/
theorem c9_invert_mode_witness :
    cfg_c9.invert_match = true ∧ xs_c9[1]? = some "a" ∧
    emitIndices (process_line cfg_c9 (xs_c9.map Except.ok)) =
      ((xs_c9.enum.filter fun il => cfg_c9.p il.2 != cfg_c9.invert_match).map
        Prod.fst) :=
  ⟨rfl, (c9_invert_mode cfg_c9 xs_c9 rfl).1 none 1 "a" (by decide),
    (c9_invert_mode cfg_c9 xs_c9 rfl).2 rfl rfl rfl⟩

/-- C10: in count mode, a stream whose scan is cut short by a read error
still gets its summary record, in the usual format, reporting the number
of lines counted up to the error — the number print mode would have
emitted for the error-free prefix. -/
theorem c10_partial_count (cfg : ScanConfig)
    (pre post : List (Except String String)) (e : String)
    (hc : cfg.count = true)
    (hpre : ∀ x ∈ pre, ∃ s, x = Except.ok s) :
    process_line cfg (pre ++ Except.error e :: post) =
      [OutRec.notice cfg.file_name e,
       OutRec.summary (if cfg.is_multiple_files then some cfg.file_name else none)
         (emitCount (process_line { cfg with count := false } pre))] := by
  rw [process_line_count_eq cfg hc]
  have hF : process_line { cfg with count := false }
        (pre ++ Except.error e :: post) =
      (process_loop { cfg with count := false } pre 0 initState).2 ++
        [OutRec.notice cfg.file_name e] := by
    have h1 := process_loop_append_ok { cfg with count := false } pre
      (Except.error e :: post) 0 initState hpre
    simp [process_line, h1, process_loop_error]
  rw [hF]
  have hnn := loop_no_notice { cfg with count := false } pre hpre 0 initState
  rw [List.filter_append, hnn]
  have hpre2 : process_line { cfg with count := false } pre =
      (process_loop { cfg with count := false } pre 0 initState).2 := by
    simp [process_line]
  rw [hpre2, emitCount_append]
  simp [OutRec.isNotice, emitCount, OutRec.isEmit]

/-- C10, witness: a count-mode stream with one counted line before the
read error reports the partial count 1 after the notice. -/
theorem c10_partial_count_witness :
    cfg_c10.count = true ∧
    process_line cfg_c10 (pre_c10 ++ Except.error "boom" :: post_c10) =
      [OutRec.notice cfg_c10.file_name "boom",
       OutRec.summary
         (if cfg_c10.is_multiple_files then some cfg_c10.file_name else none)
         (emitCount (process_line { cfg_c10 with count := false } pre_c10))] :=
  ⟨rfl, c10_partial_count cfg_c10 pre_c10 post_c10 "boom" rfl
    (by
      intro x hx
      simp [pre_c10] at hx
      rcases hx with rfl | rfl
      · exact ⟨"m", rfl⟩
      · exact ⟨"x", rfl⟩)⟩

end GrepLite
